import Mathlib

/-
  Verification development for WAM_NFC_Audio_Box.ino (WA Museum NFC Audio Box).

  Modelling conventions, stated once here:
  * Bytes are `Nat` values (the C buffers are `uint8_t[]`); buffers are `List Nat`.
  * The Teensy's IEEE-754 arithmetic is modelled over exact rationals: every C
    `float` (resp. `double`) operation applies `roundFP 23` (resp. `roundFP 52`),
    round to nearest with ties to even, to the exact rational result.  All values
    that occur lie deep inside the normal range, so overflow and subnormals are
    irrelevant and not modelled; the only nonpositive value that occurs is 0.
  * EEPROM writes are collected as an explicit trace (list of written bytes);
    `SD.exists` is a boolean predicate over file names (byte lists);
    `playSdWav1.play` calls are likewise collected as a trace of names.
-/

namespace WAM

/-! ## Definitions -/

/-- Round-to-nearest-even selection between the two neighbouring significand
integers: `lo` is the floor of the scaled significand `s`; the fractional part
decides, with ties going to the even integer. -/
def rnd (lo : ℤ) (s : ℚ) : ℤ :=
  if s - lo < 1 / 2 then lo
  else if 1 / 2 < s - lo then lo + 1
  else if lo % 2 = 0 then lo else lo + 1

/-- IEEE-754 "round to nearest, ties to even" for a binary format with `p`
fraction bits (binary32: `p = 23`, binary64: `p = 52`), acting on exact
rationals.  For `0 < x` with `2 ^ e ≤ x < 2 ^ (e + 1)` the grid step is
`2 ^ (e - p)`. -/
def roundFP (p : Nat) (x : ℚ) : ℚ :=
  if 0 < x then
    (rnd ⌊x / 2 ^ (Int.log 2 x - (p : ℤ))⌋ (x / 2 ^ (Int.log 2 x - (p : ℤ))) : ℚ) *
      2 ^ (Int.log 2 x - (p : ℤ))
  else 0

/-- A C `float` operation result: exact value rounded to binary32. -/
def fl32 (x : ℚ) : ℚ := roundFP 23 x

/-- A C `double` operation result: exact value rounded to binary64. -/
def fl64 (x : ℚ) : ℚ := roundFP 52 x

/-!
### Volume state manager (WAM_NFC_Audio_Box.ino lines 42-133)

`float currentVolume`, `const float volumeStep = 0.1`, `const float minVolume
= 0.1`, `const float maxVolume = 1.0`.  A C decimal literal `0.1` denotes the
binary64 value `fl64 (1/10)`; initializing a `float` constant from it narrows
with a further `fl32`.  `1.0` is exactly representable.
-/

def volumeStep : ℚ := fl32 (fl64 (1 / 10))

def minVolume : ℚ := fl32 (fl64 (1 / 10))

def maxVolume : ℚ := 1

/-- `(int)` cast of a C floating value: truncation toward zero. -/
def cTrunc (x : ℚ) : ℤ := if 0 ≤ x then ⌊x⌋ else -⌊-x⌋

/-- `saveVolumeToEEPROM` (lines 50-53): `int volumeInt = (int)(currentVolume *
100); EEPROM.write(EEPROM_VOLUME_ADDRESS, volumeInt)`.  The multiplication is a
float operation; `EEPROM.write` takes the int's low byte (the values that occur
are in `[0, 100]`, so the `% 256` is the identity there). -/
def saveVolume (v : ℚ) : ℕ := (cTrunc (fl32 (v * 100))).toNat % 256

/-- `loadVolumeFromEEPROM` (lines 56-64): returns the new `currentVolume`
together with the EEPROM writes performed.  `volumeInt / 100.0` is a binary64
division, narrowed to float on assignment to `currentVolume`. -/
def loadVolume (stored : ℕ) : ℚ × List ℕ :=
  if stored ≤ 100 then (fl32 (fl64 ((stored : ℚ) / 100)), [])
  else (1 / 2, [saveVolume (1 / 2)])

/-- Byte string "VOLUMEUP" (strcmp keyword). -/
def VOLUMEUPCMD : List Nat := [86, 79, 76, 85, 77, 69, 85, 80]

/-- Byte string "VOLUMEDN" (strcmp keyword). -/
def VOLUMEDNCMD : List Nat := [86, 79, 76, 85, 77, 69, 68, 78]

/-- Byte string ".WAV". -/
def DOTWAV : List Nat := [46, 87, 65, 86]

/-- Byte string "VOLUMEMX.WAV". -/
def VOLUMEMXWAV : List Nat := [86, 79, 76, 85, 77, 69, 77, 88, 46, 87, 65, 86]

/-- Byte string "VOLUMEUP.WAV". -/
def VOLUMEUPWAV : List Nat := [86, 79, 76, 85, 77, 69, 85, 80, 46, 87, 65, 86]

/-- Byte string "VOLUMEMN.WAV". -/
def VOLUMEMNWAV : List Nat := [86, 79, 76, 85, 77, 69, 77, 78, 46, 87, 65, 86]

/-- Byte string "VOLUMEDN.WAV". -/
def VOLUMEDNWAV : List Nat := [86, 79, 76, 85, 77, 69, 68, 78, 46, 87, 65, 86]

/-- Byte string "NOMATCH.WAV". -/
def NOMATCHWAV : List Nat := [78, 79, 77, 65, 84, 67, 72, 46, 87, 65, 86]

/-- Observable effects of one operation: the resulting `currentVolume`, the
EEPROM bytes written (in order), and the WAV files played (in order). -/
structure Effects where
  vol : ℚ
  writes : List ℕ
  plays : List (List ℕ)
deriving DecidableEq

/-- `volumeUp` (lines 67-99); `sd name` models `SD.exists(name)`. -/
def volumeUp (sd : List Nat → Bool) (v : ℚ) : Effects :=
  if maxVolume ≤ v then
    { vol := v, writes := [],
      plays := if sd VOLUMEMXWAV then [VOLUMEMXWAV] else [] }
  else
    { vol := if maxVolume < fl32 (v + volumeStep) then maxVolume
             else fl32 (v + volumeStep),
      writes := [saveVolume (if maxVolume < fl32 (v + volumeStep) then maxVolume
                             else fl32 (v + volumeStep))],
      plays := if sd VOLUMEUPWAV then [VOLUMEUPWAV] else [] }

/-- `volumeDown` (lines 101-133); mirror of `volumeUp` with the min bound. -/
def volumeDown (sd : List Nat → Bool) (v : ℚ) : Effects :=
  if v ≤ minVolume then
    { vol := v, writes := [],
      plays := if sd VOLUMEMNWAV then [VOLUMEMNWAV] else [] }
  else
    { vol := if fl32 (v - volumeStep) < minVolume then minVolume
             else fl32 (v - volumeStep),
      writes := [saveVolume (if fl32 (v - volumeStep) < minVolume then minVolume
                             else fl32 (v - volumeStep))],
      plays := if sd VOLUMEDNWAV then [VOLUMEDNWAV] else [] }

/-- Volume states reachable in the program: initialization via
`loadVolumeFromEEPROM` from an arbitrary stored byte (`setup`, line 224),
followed by any sequence of `volumeUp` / `volumeDown` calls. -/
inductive ReachableVol : ℚ → Prop where
  | load (k : ℕ) (hk : k ≤ 255) : ReachableVol (loadVolume k).1
  | up (sd : List Nat → Bool) {v : ℚ} : ReachableVol v → ReachableVol (volumeUp sd v).vol
  | down (sd : List Nat → Bool) {v : ℚ} : ReachableVol v → ReachableVol (volumeDown sd v).vol

/-- An SD card with no files at all (used for concrete executions). -/
def sdNone : List Nat → Bool := fun _ => false

/-!
### NDEF text record decoder (`parseNDEFTextRecord`, lines 136-164)
-/

/-- `langCodeLength = statusByte & 0x3F` where `statusByte = data[i + 4]`. -/
def langLenAt (data : List Nat) (i : Nat) : Nat := data.getD (i + 4) 0 &&& 63

/-- `textLength = payloadLength - 1 - langCodeLength` in C `int` arithmetic
(`payloadLength = data[i + 2]`); can be negative. -/
def textLengthAt (data : List Nat) (i : Nat) : Int :=
  (data.getD (i + 2) 0 : Int) - 1 - (langLenAt data i : Int)

/-- `textStart = i + 5 + langCodeLength`. -/
def textStartAt (data : List Nat) (i : Nat) : Nat := i + 5 + langLenAt data i

/-- The slice `memcpy(textOutput, &data[textStart], textLength)` copies. -/
def extractText (data : List Nat) (i : Nat) : List Nat :=
  (data.drop (textStartAt data i)).take (textLengthAt data i).toNat

/-- The scan's structural test at offset `i`:
`data[i] == 0xD1 && data[i+1] == 0x01 && data[i+3] == 0x54`. -/
def structMatch (data : List Nat) (i : Nat) : Prop :=
  data.getD i 0 = 0xD1 ∧ data.getD (i + 1) 0 = 0x01 ∧ data.getD (i + 3) 0 = 0x54

instance structMatch.dec (data : List Nat) (i : Nat) : Decidable (structMatch data i) := by
  unfold structMatch
  infer_instance

/-- The validity test at a structurally matching offset: `textLength > 0 &&
textLength < maxTextLength && textStart + textLength <= dataLength`. -/
def candidateOK (data : List Nat) (mtl : Nat) (i : Nat) : Prop :=
  0 < textLengthAt data i ∧ textLengthAt data i < (mtl : Int) ∧
    (textStartAt data i : Int) + textLengthAt data i ≤ (data.length : Int)

instance candidateOK.dec (data : List Nat) (mtl i : Nat) : Decidable (candidateOK data mtl i) := by
  unfold candidateOK
  infer_instance

/-- A successful candidate: structural match plus validity. -/
def goodAt (data : List Nat) (mtl : Nat) (i : Nat) : Prop :=
  structMatch data i ∧ candidateOK data mtl i

instance goodAt.dec (data : List Nat) (mtl i : Nat) : Decidable (goodAt data mtl i) := by
  unfold goodAt
  infer_instance

/-- One execution of the scan loop of `parseNDEFTextRecord` starting at offset
`i` with `fuel` iterations left (the loop bound is `i < dataLength - 6`),
accumulating in `racc` the indices of `data` read so far.  Returns (result,
indices of `data` read, indices of `textOutput` written).  The index reads
follow C's short-circuiting `&&`: `data[i]` is always read, `data[i+1]` only
if the first byte matched, `data[i+3]` only if the second did; after a full
structural match `data[i+2]` and `data[i+4]` are read, and on passing the
validity check the `memcpy` reads `data[textStart .. textStart+textLength-1]`
and the copy writes `textOutput[0 .. textLength]` (NUL terminator included). -/
def parseRunAux (data : List Nat) (mtl : Nat) :
    Nat → Nat → List Nat → Option (List Nat) × List Nat × List Nat
  | _, 0, racc => (none, racc, [])
  | i, fuel + 1, racc =>
    if data.getD i 0 = 0xD1 then
      if data.getD (i + 1) 0 = 0x01 then
        if data.getD (i + 3) 0 = 0x54 then
          if candidateOK data mtl i then
            (some (extractText data i),
             (racc ++ [i, i + 1, i + 3, i + 2, i + 4]) ++
               (List.range (textLengthAt data i).toNat).map (fun k => textStartAt data i + k),
             List.range (textLengthAt data i).toNat ++ [(textLengthAt data i).toNat])
          else parseRunAux data mtl (i + 1) fuel (racc ++ [i, i + 1, i + 3, i + 2, i + 4])
        else parseRunAux data mtl (i + 1) fuel (racc ++ [i, i + 1, i + 3])
      else parseRunAux data mtl (i + 1) fuel (racc ++ [i, i + 1])
    else parseRunAux data mtl (i + 1) fuel (racc ++ [i])

/-- Full traced execution of `parseNDEFTextRecord data maxTextLength`: the
loop runs over `0 <= i < dataLength - 6` (C `int` arithmetic: a negative bound
means no iterations, which truncated `Nat` subtraction models exactly). -/
def parseNDEFRun (data : List Nat) (mtl : Nat) :
    Option (List Nat) × List Nat × List Nat :=
  parseRunAux data mtl 0 (data.length - 6) []

/-- `parseNDEFTextRecord`'s result: `some copiedText` for `return true`,
`none` for `return false`. -/
def parseNDEFTextRecord (data : List Nat) (mtl : Nat) : Option (List Nat) :=
  (parseNDEFRun data mtl).1

/-- Untraced form of the same scan, used for reasoning. -/
def scanNDEF (data : List Nat) (mtl : Nat) : Nat → Nat → Option (List Nat)
  | _, 0 => none
  | i, fuel + 1 =>
    if goodAt data mtl i then some (extractText data i)
    else scanNDEF data mtl (i + 1) fuel

/-- The scan resumed from offset `j` with its remaining iteration budget. -/
def parseFromOffset (data : List Nat) (mtl j : Nat) : Option (List Nat) :=
  scanNDEF data mtl j (data.length - 6 - j)

/-- The buffer shape of the spec's round-trip property (§8):
`[padding][0xD1, 0x01, len, 0x54, status][langcode][text][padding]` with
`len = 1 + langcodelen + textlen`. -/
def ndefBuffer (pre lang text post : List Nat) (status : Nat) : List Nat :=
  pre ++ ([0xD1, 0x01, 1 + lang.length + text.length, 0x54, status] ++ (lang ++ (text ++ post)))

/-!
### Command classifier (`loop` lines 326-341 and `searchAndPlayWAV` lines 167-175)
-/

/-- C `toupper` on an unsigned char (ASCII, default C locale). -/
def toupperByte (c : Nat) : Nat := if 97 ≤ c ∧ c ≤ 122 then c - 32 else c

/-- The C string held in a byte buffer: the bytes before the first NUL. -/
def cstr (l : List Nat) : List Nat := l.takeWhile (fun c => c != 0)

/-- Filename built by `searchAndPlayWAV` from the (already uppercased) text:
copies `min(len, 27)` uppercased bytes, NUL-terminates at index `len` and
appends ".WAV".  For `len > 27` the bytes at `filename[27 .. len-1]` are
uninitialized and the following `strcat` is undefined behavior; that case is
modelled as `none` (it is unreachable from the dispatch loop, whose decoded
texts have at most 19 bytes). -/
def mkFilename (t : List Nat) : Option (List Nat) :=
  if t.length ≤ 27 then some (t.map toupperByte ++ DOTWAV) else none

/-- The dispatch decision taken on a decoded text. -/
inductive Command where
  | up : Command
  | down : Command
  | play : List Nat → Command
deriving DecidableEq

/-- Classification performed by `loop` on the parsed text buffer: uppercase
the C string in place, `strcmp` against "VOLUMEUP" then "VOLUMEDN", otherwise
build the ".WAV" filename the way `searchAndPlayWAV` does.  `none` is the
undefined-behavior case of `mkFilename`. -/
def classify (raw : List Nat) : Option Command :=
  if (cstr raw).map toupperByte = VOLUMEUPCMD then some Command.up
  else if (cstr raw).map toupperByte = VOLUMEDNCMD then some Command.down
  else (mkFilename ((cstr raw).map toupperByte)).map Command.play

/-- The classifier exactly as the spec words it (§4.2): uppercase the decoded
text, exact-match priority "VOLUMEUP", "VOLUMEDN", anything else
`PlayAsset(uppercase(text) ++ ".WAV")`. -/
def classifySpec (t : List Nat) : Command :=
  if t.map toupperByte = VOLUMEUPCMD then Command.up
  else if t.map toupperByte = VOLUMEDNCMD then Command.down
  else Command.play (t.map toupperByte ++ DOTWAV)

/-!
### Dispatch loop (`loop`, lines 269-355)
-/

/-- The page-read loop (lines 300-318): reads pages 4..9 in order into
`allData` (4 bytes per page, guarded by `dataIndex + 4 <= 24`); a failed read
sets `readSuccess = false` and breaks.  `pages` holds the would-be outcomes of
the six `ntag2xx_ReadPage` calls, in order. -/
def readPagesAux : List Nat → List (Option (List Nat)) → Bool × List Nat
  | acc, [] => (true, acc)
  | acc, none :: _ => (false, acc)
  | acc, some pg :: rest =>
    if acc.length + 4 ≤ 24 then readPagesAux (acc ++ pg.take 4) rest
    else readPagesAux acc rest

/-- One `loop` cycle after `readPassiveTargetID` found a tag with the given
UID length: pre-filter on `uidLength == 7`, page reads, NDEF parse with
`maxTextLength = sizeof(textBuffer) = 128`, classification, action.  Returns
the resulting effects (volume, EEPROM writes, plays). -/
def loopCycle (sd : List Nat → Bool) (v : ℚ) (uidLength : Nat)
    (pages : List (Option (List Nat))) : Effects :=
  if uidLength = 7 then
    if (readPagesAux [] pages).1 ∧ 0 < (readPagesAux [] pages).2.length then
      match parseNDEFTextRecord (readPagesAux [] pages).2 128 with
      | some raw =>
        match classify raw with
        | some Command.up => volumeUp sd v
        | some Command.down => volumeDown sd v
        | some (Command.play fn) =>
          if sd fn then { vol := v, writes := [], plays := [fn] }
          else if sd NOMATCHWAV then { vol := v, writes := [], plays := [NOMATCHWAV] }
          else { vol := v, writes := [], plays := [] }
        | none => { vol := v, writes := [], plays := [] }
      | none => { vol := v, writes := [], plays := [] }
    else { vol := v, writes := [], plays := [] }
  else { vol := v, writes := [], plays := [] }

/-- Buffer with an invalid structural match at offset 0 (payload length byte
0 gives `textLength = -1`) followed by a fully valid record at offset 5. -/
def cexC1 : List Nat := [0xD1, 0x01, 0x00, 0x54, 0x00, 0xD1, 0x01, 0x02, 0x54, 0x00, 0x41, 0x00]

/-- Buffer whose only (fully valid) record starts exactly at offset
`length - 6 = 4`. -/
def cexC2 : List Nat := [0, 0, 0, 0, 0xD1, 0x01, 0x02, 0x54, 0x00, 0x41]

/-! ## Theorems -/

/-! ### Rounding lemmas -/

theorem rnd_cases (lo : ℤ) (s : ℚ) : rnd lo s = lo ∨ rnd lo s = lo + 1 := by
  unfold rnd
  split_ifs <;> simp

theorem int_log_two_eq {x : ℚ} {e : ℤ}
    (h1 : (2 : ℚ) ^ e ≤ x) (h2 : x < (2 : ℚ) ^ (e + 1)) :
    Int.log 2 x = e := by
  have hx : 0 < x := lt_of_lt_of_le (zpow_pos (by norm_num) e) h1
  have hA : ((2 : ℕ) : ℚ) ^ Int.log 2 x ≤ x := Int.zpow_log_le_self (by norm_num) hx
  have hB : x < ((2 : ℕ) : ℚ) ^ (Int.log 2 x + 1) := Int.lt_zpow_succ_log_self (by norm_num) x
  rw [show ((2 : ℕ) : ℚ) = 2 by norm_num] at hA hB
  by_contra hne
  rcases lt_or_gt_of_ne hne with h | h
  · have hle : (2 : ℚ) ^ (Int.log 2 x + 1) ≤ (2 : ℚ) ^ e :=
      zpow_le_zpow_right₀ (by norm_num) (by omega)
    linarith
  · have hle : (2 : ℚ) ^ (e + 1) ≤ (2 : ℚ) ^ Int.log 2 x :=
      zpow_le_zpow_right₀ (by norm_num) (by omega)
    linarith

theorem roundFP_eq_down {p : Nat} {x : ℚ} {e m : ℤ}
    (h1 : (2 : ℚ) ^ e ≤ x) (h2 : x < (2 : ℚ) ^ (e + 1))
    (hm : (m : ℚ) * 2 ^ (e - (p : ℤ)) ≤ x)
    (hfr : x - (m : ℚ) * 2 ^ (e - (p : ℤ)) < 2 ^ (e - (p : ℤ)) / 2) :
    roundFP p x = (m : ℚ) * 2 ^ (e - (p : ℤ)) := by
  have hx : 0 < x := lt_of_lt_of_le (zpow_pos (by norm_num) e) h1
  have hg : (0 : ℚ) < 2 ^ (e - (p : ℤ)) := zpow_pos (by norm_num) _
  have hfl : ⌊x / 2 ^ (e - (p : ℤ))⌋ = m := by
    rw [Int.floor_eq_iff]
    constructor
    · exact (le_div_iff₀ hg).mpr hm
    · rw [div_lt_iff₀ hg]
      nlinarith
  rw [roundFP, if_pos hx, int_log_two_eq h1 h2, hfl]
  have hs : x / 2 ^ (e - (p : ℤ)) - (m : ℚ) < 1 / 2 := by
    rw [div_sub' _ _ _ (ne_of_gt hg), div_lt_div_iff hg (by norm_num)]
    ring_nf
    ring_nf at hfr
    nlinarith
  rw [rnd, if_pos hs]

theorem roundFP_eq_up {p : Nat} {x : ℚ} {e m : ℤ}
    (h1 : (2 : ℚ) ^ e ≤ x) (h2 : x < (2 : ℚ) ^ (e + 1))
    (hm : (m : ℚ) * 2 ^ (e - (p : ℤ)) ≤ x)
    (hup : x < ((m : ℚ) + 1) * 2 ^ (e - (p : ℤ)))
    (hfr : 2 ^ (e - (p : ℤ)) / 2 < x - (m : ℚ) * 2 ^ (e - (p : ℤ))) :
    roundFP p x = ((m : ℚ) + 1) * 2 ^ (e - (p : ℤ)) := by
  have hx : 0 < x := lt_of_lt_of_le (zpow_pos (by norm_num) e) h1
  have hg : (0 : ℚ) < 2 ^ (e - (p : ℤ)) := zpow_pos (by norm_num) _
  have hfl : ⌊x / 2 ^ (e - (p : ℤ))⌋ = m := by
    rw [Int.floor_eq_iff]
    constructor
    · exact (le_div_iff₀ hg).mpr hm
    · rw [div_lt_iff₀ hg]
      nlinarith
  rw [roundFP, if_pos hx, int_log_two_eq h1 h2, hfl]
  have hs1 : ¬ (x / 2 ^ (e - (p : ℤ)) - (m : ℚ) < 1 / 2) := by
    rw [not_lt, le_sub_iff_add_le, le_div_iff₀ hg]
    nlinarith
  have hs2 : (1 : ℚ) / 2 < x / 2 ^ (e - (p : ℤ)) - (m : ℚ) := by
    rw [lt_sub_iff_add_lt, lt_div_iff₀ hg]
    nlinarith
  rw [rnd, if_neg hs1, if_pos hs2]
  push_cast
  ring

theorem roundFP_zero (p : Nat) : roundFP p 0 = 0 := by
  rw [roundFP, if_neg (by norm_num)]

theorem roundFP_nonneg (p : Nat) {x : ℚ} (hx : 0 ≤ x) : 0 ≤ roundFP p x := by
  rcases eq_or_lt_of_le hx with h | h
  · rw [← h, roundFP_zero]
  · rw [roundFP, if_pos h]
    have hg : (0 : ℚ) < 2 ^ (Int.log 2 x - (p : ℤ)) := zpow_pos (by norm_num) _
    have hlo : (0 : ℤ) ≤ ⌊x / 2 ^ (Int.log 2 x - (p : ℤ))⌋ :=
      Int.floor_nonneg.mpr (le_of_lt (div_pos h hg))
    rcases rnd_cases ⌊x / 2 ^ (Int.log 2 x - (p : ℤ))⌋ (x / 2 ^ (Int.log 2 x - (p : ℤ))) with
      hc | hc <;> rw [hc] <;> positivity

theorem roundFP_le (p : Nat) {x : ℚ} (hx : 0 < x) :
    roundFP p x ≤ x + x / 2 ^ p := by
  rw [roundFP, if_pos hx]
  have hA : ((2 : ℕ) : ℚ) ^ Int.log 2 x ≤ x := Int.zpow_log_le_self (by norm_num) hx
  rw [show ((2 : ℕ) : ℚ) = 2 by norm_num] at hA
  have hg : (0 : ℚ) < 2 ^ (Int.log 2 x - (p : ℤ)) := zpow_pos (by norm_num) _
  have hgle : (2 : ℚ) ^ (Int.log 2 x - (p : ℤ)) ≤ x / 2 ^ p := by
    rw [zpow_sub₀ (by norm_num : (2 : ℚ) ≠ 0), zpow_natCast]
    exact div_le_div_of_nonneg_right hA (by positivity)
  have hfl : (⌊x / 2 ^ (Int.log 2 x - (p : ℤ))⌋ : ℚ) ≤ x / 2 ^ (Int.log 2 x - (p : ℤ)) :=
    Int.floor_le _
  rcases rnd_cases ⌊x / 2 ^ (Int.log 2 x - (p : ℤ))⌋ (x / 2 ^ (Int.log 2 x - (p : ℤ))) with
    hc | hc <;> rw [hc]
  · calc (⌊x / 2 ^ (Int.log 2 x - (p : ℤ))⌋ : ℚ) * 2 ^ (Int.log 2 x - (p : ℤ))
        ≤ x / 2 ^ (Int.log 2 x - (p : ℤ)) * 2 ^ (Int.log 2 x - (p : ℤ)) := by
          exact mul_le_mul_of_nonneg_right hfl (le_of_lt hg)
      _ = x := div_mul_cancel₀ _ (ne_of_gt hg)
      _ ≤ x + x / 2 ^ p := by
          have hd : (0 : ℚ) ≤ x / 2 ^ p := by positivity
          linarith
  · push_cast
    calc ((⌊x / 2 ^ (Int.log 2 x - (p : ℤ))⌋ : ℚ) + 1) * 2 ^ (Int.log 2 x - (p : ℤ))
        ≤ (x / 2 ^ (Int.log 2 x - (p : ℤ)) + 1) * 2 ^ (Int.log 2 x - (p : ℤ)) := by
          exact mul_le_mul_of_nonneg_right (by linarith) (le_of_lt hg)
      _ = x + 2 ^ (Int.log 2 x - (p : ℤ)) := by
          rw [add_mul, div_mul_cancel₀ _ (ne_of_gt hg), one_mul]
      _ ≤ x + x / 2 ^ p := by linarith

theorem le_roundFP (p : Nat) {x : ℚ} (hx : 0 < x) :
    x - x / 2 ^ p ≤ roundFP p x := by
  rw [roundFP, if_pos hx]
  have hA : ((2 : ℕ) : ℚ) ^ Int.log 2 x ≤ x := Int.zpow_log_le_self (by norm_num) hx
  rw [show ((2 : ℕ) : ℚ) = 2 by norm_num] at hA
  have hg : (0 : ℚ) < 2 ^ (Int.log 2 x - (p : ℤ)) := zpow_pos (by norm_num) _
  have hgle : (2 : ℚ) ^ (Int.log 2 x - (p : ℤ)) ≤ x / 2 ^ p := by
    rw [zpow_sub₀ (by norm_num : (2 : ℚ) ≠ 0), zpow_natCast]
    exact div_le_div_of_nonneg_right hA (by positivity)
  have hfl : x / 2 ^ (Int.log 2 x - (p : ℤ)) - 1 <
      (⌊x / 2 ^ (Int.log 2 x - (p : ℤ))⌋ : ℚ) := by
    have := Int.sub_one_lt_floor (x / 2 ^ (Int.log 2 x - (p : ℤ)))
    linarith
  rcases rnd_cases ⌊x / 2 ^ (Int.log 2 x - (p : ℤ))⌋ (x / 2 ^ (Int.log 2 x - (p : ℤ))) with
    hc | hc <;> rw [hc]
  · calc x - x / 2 ^ p
        ≤ x - 2 ^ (Int.log 2 x - (p : ℤ)) := by linarith
      _ = (x / 2 ^ (Int.log 2 x - (p : ℤ)) - 1) * 2 ^ (Int.log 2 x - (p : ℤ)) := by
          rw [sub_mul, div_mul_cancel₀ _ (ne_of_gt hg), one_mul]
      _ ≤ (⌊x / 2 ^ (Int.log 2 x - (p : ℤ))⌋ : ℚ) * 2 ^ (Int.log 2 x - (p : ℤ)) := by
          exact mul_le_mul_of_nonneg_right (le_of_lt hfl) (le_of_lt hg)
  · push_cast
    calc x - x / 2 ^ p
        ≤ x - 2 ^ (Int.log 2 x - (p : ℤ)) := by linarith
      _ = (x / 2 ^ (Int.log 2 x - (p : ℤ)) - 1) * 2 ^ (Int.log 2 x - (p : ℤ)) := by
          rw [sub_mul, div_mul_cancel₀ _ (ne_of_gt hg), one_mul]
      _ ≤ ((⌊x / 2 ^ (Int.log 2 x - (p : ℤ))⌋ : ℚ) + 1) * 2 ^ (Int.log 2 x - (p : ℤ)) := by
          exact mul_le_mul_of_nonneg_right (by linarith) (le_of_lt hg)

/-! ### Concrete IEEE evaluations used by the volume theorems -/

theorem fl64_tenth : fl64 (1 / 10) = 7205759403792794 / 2 ^ 56 := by
  have h := roundFP_eq_up (p := 52) (x := (1 : ℚ) / 10) (e := -4) (m := 7205759403792793)
    (by norm_num) (by norm_num) (by norm_num) (by norm_num) (by norm_num)
  rw [fl64, h]
  norm_num

theorem fl32_of_fl64_tenth : fl32 (7205759403792794 / 2 ^ 56) = 13421773 / 2 ^ 27 := by
  have h := roundFP_eq_up (p := 23) (x := (7205759403792794 : ℚ) / 2 ^ 56) (e := -4)
    (m := 13421772) (by norm_num) (by norm_num) (by norm_num) (by norm_num) (by norm_num)
  rw [fl32, h]
  norm_num

theorem volumeStep_val : volumeStep = 13421773 / 2 ^ 27 := by
  rw [volumeStep, fl64_tenth, fl32_of_fl64_tenth]

theorem minVolume_val : minVolume = 13421773 / 2 ^ 27 := by
  rw [minVolume, fl64_tenth, fl32_of_fl64_tenth]

theorem fl64_one : fl64 1 = 1 := by
  have h := roundFP_eq_down (p := 52) (x := (1 : ℚ)) (e := 0) (m := 2 ^ 52)
    (by norm_num) (by norm_num) (by norm_num) (by norm_num)
  rw [fl64, h]
  norm_num

theorem fl32_one : fl32 1 = 1 := by
  have h := roundFP_eq_down (p := 23) (x := (1 : ℚ)) (e := 0) (m := 2 ^ 23)
    (by norm_num) (by norm_num) (by norm_num) (by norm_num)
  rw [fl32, h]
  norm_num

theorem fl32_fifty : fl32 50 = 50 := by
  have h := roundFP_eq_down (p := 23) (x := (50 : ℚ)) (e := 5) (m := 13107200)
    (by norm_num) (by norm_num) (by norm_num) (by norm_num)
  rw [fl32, h]
  norm_num

theorem fl32_one_sub_step : fl32 (120795955 / 2 ^ 27) = 15099494 / 2 ^ 24 := by
  have h := roundFP_eq_down (p := 23) (x := (120795955 : ℚ) / 2 ^ 27) (e := -1)
    (m := 15099494) (by norm_num) (by norm_num) (by norm_num) (by norm_num)
  rw [fl32, h]
  norm_num

theorem fl32_p9_sub_step : fl32 (107374179 / 2 ^ 27) = 13421772 / 2 ^ 24 := by
  have h := roundFP_eq_down (p := 23) (x := (107374179 : ℚ) / 2 ^ 27) (e := -1)
    (m := 13421772) (by norm_num) (by norm_num) (by norm_num) (by norm_num)
  rw [fl32, h]
  norm_num

theorem fl32_v2_times_100 : fl32 (1342177200 / 2 ^ 24) = 10485759 / 2 ^ 17 := by
  have h := roundFP_eq_down (p := 23) (x := (1342177200 : ℚ) / 2 ^ 24) (e := 6)
    (m := 10485759) (by norm_num) (by norm_num) (by norm_num) (by norm_num)
  rw [fl32, h]
  norm_num

theorem saveVolume_half : saveVolume (1 / 2) = 50 := by
  rw [saveVolume, show (1 : ℚ) / 2 * 100 = 50 by norm_num, fl32_fifty]
  rw [cTrunc, if_pos (by norm_num)]
  rw [show ⌊(50 : ℚ)⌋ = 50 from Int.floor_eq_iff.mpr (by norm_num)]
  rfl

theorem loadVolume_100 : (loadVolume 100).1 = 1 := by
  rw [loadVolume, if_pos (by norm_num)]
  norm_num [fl64_one, fl32_one]

/-! ### Scan lemmas for the decoder -/

theorem getD_append_add (l1 l2 : List Nat) (n d : Nat) :
    (l1 ++ l2).getD (l1.length + n) d = l2.getD n d := by
  induction l1 with
  | nil => simp
  | cons a t ih => simpa [List.length_cons, Nat.succ_add] using ih

theorem drop_append_add (l1 l2 : List Nat) (n : Nat) :
    (l1 ++ l2).drop (l1.length + n) = l2.drop n := by
  induction l1 with
  | nil => simp
  | cons a t ih => simp [List.length_cons, Nat.succ_add, ih]

theorem parseRunAux_fst (data : List Nat) (mtl : Nat) :
    ∀ fuel i racc, (parseRunAux data mtl i fuel racc).1 = scanNDEF data mtl i fuel := by
  intro fuel
  induction fuel with
  | zero => intro i racc; rfl
  | succ n ih =>
    intro i racc
    rw [parseRunAux, scanNDEF]
    by_cases h1 : data.getD i 0 = 0xD1
    · rw [if_pos h1]
      by_cases h2 : data.getD (i + 1) 0 = 0x01
      · rw [if_pos h2]
        by_cases h3 : data.getD (i + 3) 0 = 0x54
        · rw [if_pos h3]
          by_cases h4 : candidateOK data mtl i
          · rw [if_pos h4, if_pos (show goodAt data mtl i from ⟨⟨h1, h2, h3⟩, h4⟩)]
          · rw [if_neg h4, if_neg (show ¬ goodAt data mtl i from fun hg => h4 hg.2), ih]
        · rw [if_neg h3,
            if_neg (show ¬ goodAt data mtl i from fun hg => h3 hg.1.2.2), ih]
      · rw [if_neg h2,
          if_neg (show ¬ goodAt data mtl i from fun hg => h2 hg.1.2.1), ih]
    · rw [if_neg h1, if_neg (show ¬ goodAt data mtl i from fun hg => h1 hg.1.1), ih]

theorem scanNDEF_skip (data : List Nat) (mtl : Nat) {i : Nat} (fuel : Nat)
    (h : ¬ goodAt data mtl i) :
    scanNDEF data mtl i (fuel + 1) = scanNDEF data mtl (i + 1) fuel := by
  rw [scanNDEF, if_neg h]

theorem scanNDEF_some_iff (data : List Nat) (mtl : Nat) :
    ∀ fuel i t, scanNDEF data mtl i fuel = some t ↔
      ∃ k, k < fuel ∧ goodAt data mtl (i + k) ∧
        (∀ j, j < k → ¬ goodAt data mtl (i + j)) ∧ t = extractText data (i + k) := by
  intro fuel
  induction fuel with
  | zero =>
    intro i t
    simp [scanNDEF]
  | succ n ih =>
    intro i t
    rw [scanNDEF]
    by_cases h : goodAt data mtl i
    · rw [if_pos h]
      constructor
      · intro he
        exact ⟨0, by omega, by simpa using h, by omega, by simpa using (Option.some_inj.mp he).symm⟩
      · rintro ⟨k, hk, hg, hfirst, ht⟩
        rcases Nat.eq_zero_or_pos k with hk0 | hk0
        · subst hk0
          simp only [Nat.add_zero] at hg ht
          rw [ht]
        · exact absurd h (by simpa using hfirst 0 hk0)
    · rw [if_neg h, ih]
      constructor
      · rintro ⟨k, hk, hg, hfirst, ht⟩
        refine ⟨k + 1, by omega, ?_, ?_, ?_⟩
        · have he : i + (k + 1) = i + 1 + k := by omega
          rw [he]
          exact hg
        · intro j hj
          cases j with
          | zero => simpa using h
          | succ j' =>
            have he : i + (j' + 1) = i + 1 + j' := by omega
            rw [he]
            exact hfirst j' (by omega)
        · have he : i + (k + 1) = i + 1 + k := by omega
          rw [he]
          exact ht
      · rintro ⟨k, hk, hg, hfirst, ht⟩
        cases k with
        | zero => exact absurd hg (by simpa using h)
        | succ k' =>
          refine ⟨k', by omega, ?_, ?_, ?_⟩
          · have he : i + 1 + k' = i + (k' + 1) := by omega
            rw [he]
            exact hg
          · intro j hj
            have he : i + 1 + j = i + (j + 1) := by omega
            rw [he]
            exact hfirst (j + 1) (by omega)
          · have he : i + 1 + k' = i + (k' + 1) := by omega
            rw [he]
            exact ht

theorem scanNDEF_skip_many (data : List Nat) (mtl : Nat) :
    ∀ m i fuel, (∀ j, j < m → ¬ goodAt data mtl (i + j)) →
      scanNDEF data mtl i (m + fuel) = scanNDEF data mtl (i + m) fuel := by
  intro m
  induction m with
  | zero =>
    intro i fuel _
    simp
  | succ n ih =>
    intro i fuel h
    have h0 : ¬ goodAt data mtl i := by simpa using h 0 (by omega)
    have hstep : n + 1 + fuel = (n + fuel) + 1 := by omega
    rw [hstep, scanNDEF_skip data mtl (n + fuel) h0]
    have hrest : ∀ j, j < n → ¬ goodAt data mtl (i + 1 + j) := by
      intro j hj
      have he : i + 1 + j = i + (j + 1) := by omega
      rw [he]
      exact h (j + 1) (by omega)
    rw [ih (i + 1) fuel hrest]
    have he : i + 1 + n = i + (n + 1) := by omega
    rw [he]

/-! ### Claim C1 -/

/-- C1 (amended): when the first offset carrying a structural match fails the
length checks, `parseNDEFTextRecord` does NOT stop there: the scan continues
with the next offset, so the overall result equals the scan resumed past the
failed candidate (and a later fully valid candidate is therefore found; there
is also no `InvalidLength` error value — the function reports only boolean
failure). -/
theorem scan_continues_past_invalid_first_match (data : List Nat) (mtl i : Nat)
    (hfirst : ∀ j, j < i → ¬ structMatch data j)
    (hmatch : structMatch data i) (hbad : ¬ candidateOK data mtl i) :
    parseNDEFTextRecord data mtl = parseFromOffset data mtl (i + 1) := by
  rw [parseNDEFTextRecord, parseNDEFRun, parseRunAux_fst, parseFromOffset]
  by_cases hib : i < data.length - 6
  · have hsplit : data.length - 6 = i + (data.length - 6 - i) := by omega
    conv_lhs => rw [hsplit]
    rw [scanNDEF_skip_many data mtl i 0 (data.length - 6 - i)
      (fun j hj => by rw [Nat.zero_add]; exact fun hg => hfirst j hj hg.1)]
    rw [Nat.zero_add]
    have hfuel : data.length - 6 - i = (data.length - 6 - (i + 1)) + 1 := by omega
    rw [hfuel, scanNDEF_skip data mtl (data.length - 6 - (i + 1))
      (fun hg => hbad hg.2)]
  · have h1 : scanNDEF data mtl 0 (data.length - 6) = none := by
      have h := scanNDEF_skip_many data mtl (data.length - 6) 0 0
        (fun j hj => by rw [Nat.zero_add]; exact fun hg => hfirst j (by omega) hg.1)
      rw [Nat.add_zero] at h
      rw [h]
      rfl
    rw [h1]
    have h2 : data.length - 6 - (i + 1) = 0 := by omega
    rw [h2]
    rfl

/-- C1 counterexample: in `cexC1` the first structural match sits at offset 0
and fails the length check (`textLength = -1`), yet decoding succeeds with the
text of the fully valid record at offset 5 — so the claimed "returns
InvalidLength without scanning any later offset" is false on this code. -/
theorem c1_counterexample :
    structMatch cexC1 0 ∧ ¬ candidateOK cexC1 128 0 ∧
      parseNDEFTextRecord cexC1 128 = some [0x41] := by
  refine ⟨by decide, by decide, by decide⟩

theorem c1_witness :
    parseNDEFTextRecord cexC1 128 = parseFromOffset cexC1 128 1 :=
  scan_continues_past_invalid_first_match cexC1 128 0 (by decide) (by decide) (by decide)

/-! ### Claim C2 -/

/-- C2 (amended): full characterization of the scan.  `parseNDEFTextRecord`
returns `some t` exactly when some offset `i` with `i + 6 < length` (that is,
`i ≤ length - 7`: the loop condition is `i < dataLength - 6`, so a pattern
starting exactly at offset `length - 6` is never examined) is the leftmost
offset whose structural pattern matches AND whose validity checks pass, with
`t` the text extracted there. -/
theorem parse_first_match_characterization (data : List Nat) (mtl : Nat) (t : List Nat) :
    parseNDEFTextRecord data mtl = some t ↔
      ∃ i, i + 6 < data.length ∧ goodAt data mtl i ∧
        (∀ j, j < i → ¬ goodAt data mtl j) ∧ t = extractText data i := by
  rw [parseNDEFTextRecord, parseNDEFRun, parseRunAux_fst, scanNDEF_some_iff]
  constructor
  · rintro ⟨k, hk, hg, hfirst, ht⟩
    exact ⟨k, by omega, by simpa using hg, fun j hj => by simpa using hfirst j hj,
      by simpa using ht⟩
  · rintro ⟨i, hi, hg, hfirst, ht⟩
    exact ⟨i, by omega, by simpa using hg, fun j hj => by simpa using hfirst j hj,
      by simpa using ht⟩

/-- C2 counterexample: `cexC2` has length 10 and carries a fully valid record
starting exactly at offset `10 - 6 = 4`, but the scan never examines that
offset and decoding fails — refuting "offsets 0 through L-6 inclusive" and "a
pattern starting exactly at offset L-6 is found". -/
theorem c2_counterexample :
    cexC2.length = 10 ∧ structMatch cexC2 4 ∧ candidateOK cexC2 128 4 ∧
      parseNDEFTextRecord cexC2 128 = none := by
  refine ⟨by decide, by decide, by decide, by decide⟩

/-! ### Claim C3 -/

/-- C3 (amended): decoder round-trip.  For a buffer
`[padding][0xD1, 0x01, len, 0x54, status][langcode][text][padding]` with
`len = 1 + langcodelen + textlen`, status low six bits equal to `langcodelen`
and `textlen < maxTextLength`, decoding returns exactly `text`, PROVIDED
additionally that `textlen >= 1` (the code rejects `textLength <= 0`), that
the record's offset `p` satisfies `p + 7 <= length` (the loop only examines
offsets `< length - 6`), and that no earlier offset carries a structurally
matching candidate that passes the validity checks (first match wins). -/
theorem decode_roundtrip (pre lang text post : List Nat) (status mtl : Nat)
    (hlen : 1 + lang.length + text.length ≤ 255)
    (hstatus : status &&& 63 = lang.length)
    (htext : 1 ≤ text.length) (hmtl : text.length < mtl)
    (hreach : pre.length + 7 ≤ (ndefBuffer pre lang text post status).length)
    (hfirst : ∀ j, j < pre.length → ¬ goodAt (ndefBuffer pre lang text post status) mtl j) :
    parseNDEFTextRecord (ndefBuffer pre lang text post status) mtl = some text := by
  have hb : ∀ k : Nat,
      (ndefBuffer pre lang text post status).getD (pre.length + k) 0 =
        ([0xD1, 0x01, 1 + lang.length + text.length, 0x54, status] ++
          (lang ++ (text ++ post))).getD k 0 :=
    fun k => getD_append_add _ _ k 0
  have hlength : (ndefBuffer pre lang text post status).length =
      pre.length + 5 + lang.length + text.length + post.length := by
    simp [ndefBuffer]
    omega
  have hmatch : structMatch (ndefBuffer pre lang text post status) pre.length := by
    refine ⟨?_, ?_, ?_⟩
    · have h := hb 0
      rw [Nat.add_zero] at h
      rw [h]
      rfl
    · rw [hb 1]
      rfl
    · rw [hb 3]
      rfl
  have hlang : langLenAt (ndefBuffer pre lang text post status) pre.length = lang.length := by
    rw [langLenAt, hb 4]
    exact hstatus
  have htlen : textLengthAt (ndefBuffer pre lang text post status) pre.length =
      (text.length : Int) := by
    rw [textLengthAt, hb 2, hlang]
    have : (([0xD1, 0x01, 1 + lang.length + text.length, 0x54, status] ++
        (lang ++ (text ++ post))).getD 2 0) = 1 + lang.length + text.length := rfl
    rw [this]
    push_cast
    ring
  have hstart : textStartAt (ndefBuffer pre lang text post status) pre.length =
      pre.length + 5 + lang.length := by
    rw [textStartAt, hlang]
  have hok : candidateOK (ndefBuffer pre lang text post status) mtl pre.length := by
    refine ⟨?_, ?_, ?_⟩
    · rw [htlen]
      exact_mod_cast htext
    · rw [htlen]
      exact_mod_cast hmtl
    · rw [htlen, hstart, hlength]
      push_cast
      omega
  have hextract : extractText (ndefBuffer pre lang text post status) pre.length = text := by
    rw [extractText, hstart, htlen, Int.toNat_natCast]
    have hdrop : (ndefBuffer pre lang text post status).drop (pre.length + 5 + lang.length) =
        text ++ post := by
      have h1 : pre.length + 5 + lang.length = pre.length + (5 + lang.length) := by omega
      rw [h1, ndefBuffer, drop_append_add]
      have h2 : (5 : Nat) + lang.length =
          ([0xD1, 0x01, 1 + lang.length + text.length, 0x54, status] : List Nat).length +
            lang.length := by rfl
      rw [h2, drop_append_add]
      have h3 : lang.length = lang.length + 0 := by omega
      rw [h3, drop_append_add]
      rfl
    rw [hdrop, List.take_left]
  rw [parseNDEFTextRecord, parseNDEFRun, parseRunAux_fst, scanNDEF_some_iff]
  refine ⟨pre.length, by omega, ?_, ?_, ?_⟩
  · rw [Nat.zero_add]
    exact ⟨hmatch, hok⟩
  · intro j hj
    rw [Nat.zero_add]
    exact hfirst j hj
  · rw [Nat.zero_add, hextract]

theorem c3_witness :
    parseNDEFTextRecord (ndefBuffer [] [101, 110] [72, 73] [0, 0] 2) 128 = some [72, 73] :=
  decode_roundtrip [] [101, 110] [72, 73] [0, 0] 2 128 (by decide) (by decide) (by decide)
    (by decide) (by decide) (by decide)

/-- C3 counterexample: the claim's construction instantiated with an empty
text (`len` byte 1, empty language code, `status = 0`, `textlen = 0 <
maxTextLength = 128`) satisfies everything the claim asks, yet decoding fails
instead of returning the empty text: the claim misses that `textLength` must
be positive (and that the scan must be able to reach the record's offset). -/
theorem c3_counterexample :
    parseNDEFTextRecord (ndefBuffer [] [] [] [0, 0] 0) 128 = none := by
  decide

/-! ### Claim C10 -/

theorem parseRunAux_safety (data : List Nat) (mtl : Nat) :
    ∀ fuel i racc, i + fuel ≤ data.length - 6 →
      (∀ r, r ∈ racc → r < data.length) →
      (∀ r, r ∈ (parseRunAux data mtl i fuel racc).2.1 → r < data.length) ∧
      (∀ w, w ∈ (parseRunAux data mtl i fuel racc).2.2 → w < mtl) ∧
      (∀ t, (parseRunAux data mtl i fuel racc).1 = some t → t.length < mtl) := by
  intro fuel
  induction fuel with
  | zero =>
    intro i racc _ hracc
    refine ⟨?_, ?_, ?_⟩
    · intro r hr
      exact hracc r hr
    · intro w hw
      simp [parseRunAux] at hw
    · intro t ht
      simp [parseRunAux] at ht
  | succ n ih =>
    intro i racc hbound hracc
    have hi6 : i + 6 < data.length := by omega
    rw [parseRunAux]
    by_cases h1 : data.getD i 0 = 0xD1
    · rw [if_pos h1]
      by_cases h2 : data.getD (i + 1) 0 = 0x01
      · rw [if_pos h2]
        by_cases h3 : data.getD (i + 3) 0 = 0x54
        · rw [if_pos h3]
          by_cases h4 : candidateOK data mtl i
          · rw [if_pos h4]
            obtain ⟨hpos, hlt, hbnd⟩ := h4
            have htl : (textLengthAt data i).toNat < mtl := by omega
            have hse : textStartAt data i + (textLengthAt data i).toNat ≤ data.length := by
              omega
            refine ⟨?_, ?_, ?_⟩
            · intro r hr
              rcases List.mem_append.mp hr with hr | hr
              · rcases List.mem_append.mp hr with hr | hr
                · exact hracc r hr
                · simp only [List.mem_cons, List.mem_singleton] at hr
                  rcases hr with rfl | rfl | rfl | rfl | rfl | h
                  · omega
                  · omega
                  · omega
                  · omega
                  · omega
                  · simp at h
              · obtain ⟨k, hk, rfl⟩ := List.mem_map.mp hr
                rw [List.mem_range] at hk
                omega
            · intro w hw
              rcases List.mem_append.mp hw with hw | hw
              · rw [List.mem_range] at hw
                omega
              · simp only [List.mem_singleton] at hw
                omega
            · intro t ht
              have he : t = extractText data i := (Option.some_inj.mp ht).symm
              rw [he, extractText]
              have := List.length_take ((textLengthAt data i).toNat)
                (data.drop (textStartAt data i))
              omega
          · rw [if_neg h4]
            refine ih (i + 1) (racc ++ [i, i + 1, i + 3, i + 2, i + 4]) (by omega) ?_
            intro r hr
            rcases List.mem_append.mp hr with hr | hr
            · exact hracc r hr
            · simp only [List.mem_cons, List.mem_singleton] at hr
              rcases hr with rfl | rfl | rfl | rfl | rfl | h
              · omega
              · omega
              · omega
              · omega
              · omega
              · simp at h
        · rw [if_neg h3]
          refine ih (i + 1) (racc ++ [i, i + 1, i + 3]) (by omega) ?_
          intro r hr
          rcases List.mem_append.mp hr with hr | hr
          · exact hracc r hr
          · simp only [List.mem_cons, List.mem_singleton] at hr
            rcases hr with rfl | rfl | rfl | h
            · omega
            · omega
            · omega
            · simp at h
      · rw [if_neg h2]
        refine ih (i + 1) (racc ++ [i, i + 1]) (by omega) ?_
        intro r hr
        rcases List.mem_append.mp hr with hr | hr
        · exact hracc r hr
        · simp only [List.mem_cons, List.mem_singleton] at hr
          rcases hr with rfl | rfl | h
          · omega
          · omega
          · simp at h
    · rw [if_neg h1]
      refine ih (i + 1) (racc ++ [i]) (by omega) ?_
      intro r hr
      rcases List.mem_append.mp hr with hr | hr
      · exact hracc r hr
      · simp only [List.mem_singleton] at hr
        subst hr
        omega

/-- C10: memory safety of the decoder.  Every `data` index the traced
execution of `parseNDEFTextRecord data maxTextLength` reads is strictly below
`dataLength`; every `textOutput` index it writes is strictly below
`maxTextLength`; and a successfully returned text is shorter than
`maxTextLength` (its `textLength` bytes plus the terminator fit the output
buffer). -/
theorem parse_memory_safety (data : List Nat) (mtl : Nat) :
    (∀ r, r ∈ (parseNDEFRun data mtl).2.1 → r < data.length) ∧
    (∀ w, w ∈ (parseNDEFRun data mtl).2.2 → w < mtl) ∧
    (∀ t, parseNDEFTextRecord data mtl = some t → t.length < mtl) :=
  parseRunAux_safety data mtl (data.length - 6) 0 [] (by omega) (by simp)

theorem c10_witness :
    (∀ r, r ∈ (parseNDEFRun [0xD1, 0x01, 0x02, 0x54, 0x00, 0x41, 0x00] 128).2.1 →
        r < ([0xD1, 0x01, 0x02, 0x54, 0x00, 0x41, 0x00] : List Nat).length) ∧
    (∀ w, w ∈ (parseNDEFRun [0xD1, 0x01, 0x02, 0x54, 0x00, 0x41, 0x00] 128).2.2 → w < 128) ∧
    (∀ t, parseNDEFTextRecord [0xD1, 0x01, 0x02, 0x54, 0x00, 0x41, 0x00] 128 = some t →
        t.length < 128) :=
  parse_memory_safety [0xD1, 0x01, 0x02, 0x54, 0x00, 0x41, 0x00] 128

/-! ### Volume trace lemmas -/

theorem fl32_one_sub_step_vol : fl32 (1 - volumeStep) = 15099494 / 2 ^ 24 := by
  rw [volumeStep_val, show (1 : ℚ) - 13421773 / 2 ^ 27 = 120795955 / 2 ^ 27 by norm_num,
    fl32_one_sub_step]

theorem volumeDown_one_vol : (volumeDown sdNone 1).vol = 15099494 / 2 ^ 24 := by
  rw [volumeDown, if_neg (by rw [minVolume_val]; norm_num)]
  show (if fl32 (1 - volumeStep) < minVolume then minVolume
    else fl32 (1 - volumeStep)) = 15099494 / 2 ^ 24
  rw [fl32_one_sub_step_vol, if_neg (by rw [minVolume_val]; norm_num)]

theorem fl32_v1_sub_step_vol :
    fl32 (15099494 / 2 ^ 24 - volumeStep) = 13421772 / 2 ^ 24 := by
  rw [volumeStep_val,
    show (15099494 : ℚ) / 2 ^ 24 - 13421773 / 2 ^ 27 = 107374179 / 2 ^ 27 by norm_num,
    fl32_p9_sub_step]

theorem saveVolume_v2 : saveVolume (13421772 / 2 ^ 24) = 79 := by
  rw [saveVolume, show (13421772 : ℚ) / 2 ^ 24 * 100 = 1342177200 / 2 ^ 24 by norm_num,
    fl32_v2_times_100, cTrunc, if_pos (by norm_num)]
  rw [show ⌊(10485759 : ℚ) / 2 ^ 17⌋ = 79 from Int.floor_eq_iff.mpr (by norm_num)]
  rfl

theorem volumeDown_v1 :
    (volumeDown sdNone (15099494 / 2 ^ 24)).vol = 13421772 / 2 ^ 24 ∧
    (volumeDown sdNone (15099494 / 2 ^ 24)).writes = [79] := by
  rw [volumeDown, if_neg (by rw [minVolume_val]; norm_num)]
  constructor
  · show (if fl32 (15099494 / 2 ^ 24 - volumeStep) < minVolume then minVolume
      else fl32 (15099494 / 2 ^ 24 - volumeStep)) = 13421772 / 2 ^ 24
    rw [fl32_v1_sub_step_vol, if_neg (by rw [minVolume_val]; norm_num)]
  · show [saveVolume (if fl32 (15099494 / 2 ^ 24 - volumeStep) < minVolume then minVolume
      else fl32 (15099494 / 2 ^ 24 - volumeStep))] = [79]
    rw [fl32_v1_sub_step_vol, if_neg (by rw [minVolume_val]; norm_num), saveVolume_v2]

/-! ### Claim C4 -/

/-- C4 counterexample: initialization with stored byte 0 passes the
`volumeInt <= 100` validity check and sets the in-memory volume to 0, strictly
below `minVolume`: the claimed invariant `volume ∈ [minVolume, maxVolume]`
already fails right after initialization from persistent storage. -/
theorem c4_counterexample :
    (loadVolume 0).1 = 0 ∧ (loadVolume 0).1 < minVolume := by
  have h : (loadVolume 0).1 = 0 := by
    rw [loadVolume, if_pos (by norm_num)]
    show fl32 (fl64 (((0 : ℕ) : ℚ) / 100)) = 0
    rw [show (((0 : ℕ) : ℚ) / 100) = 0 by norm_num, fl64, roundFP_zero, fl32, roundFP_zero]
  refine ⟨h, ?_⟩
  rw [h, minVolume_val]
  norm_num

/-- C4 (amended): every reachable volume state lies in `[0, maxVolume]`, and
these bounds are preserved by every `volumeUp` / `volumeDown`.  The original
lower bound `minVolume` is false at initialization (any stored byte `<= 100`
is accepted, so volumes down to 0 occur); the interval `[0, 1]` is the
invariant the code actually maintains. -/
theorem reachable_volume_bounds (v : ℚ) (h : ReachableVol v) :
    0 ≤ v ∧ v ≤ maxVolume := by
  induction h with
  | load k hk =>
    by_cases hc : k ≤ 100
    · rw [loadVolume, if_pos hc]
      show 0 ≤ fl32 (fl64 ((k : ℚ) / 100)) ∧ fl32 (fl64 ((k : ℚ) / 100)) ≤ maxVolume
      rcases Nat.eq_zero_or_pos k with h0 | hpos
      · subst h0
        rw [show (((0 : ℕ) : ℚ) / 100) = 0 by norm_num, fl64, roundFP_zero, fl32,
          roundFP_zero, maxVolume]
        norm_num
      · by_cases h100 : k = 100
        · subst h100
          rw [show (((100 : ℕ) : ℚ) / 100) = 1 by norm_num, fl64_one, fl32_one, maxVolume]
          norm_num
        · have hx : (0 : ℚ) < (k : ℚ) / 100 := by positivity
          have hxle : (k : ℚ) / 100 ≤ 99 / 100 := by
            have hk99 : (k : ℚ) ≤ 99 := by exact_mod_cast (by omega : k ≤ 99)
            linarith
          rw [fl32, fl64]
          have h1 := roundFP_le 52 hx
          have h2 := le_roundFP 52 hx
          have ha : 0 < roundFP 52 ((k : ℚ) / 100) := by linarith
          have h3 := roundFP_le 23 ha
          have h4 := roundFP_nonneg 23 (le_of_lt ha)
          rw [maxVolume]
          constructor
          · exact h4
          · linarith
    · rw [loadVolume, if_neg hc]
      show 0 ≤ (1 : ℚ) / 2 ∧ (1 : ℚ) / 2 ≤ maxVolume
      rw [maxVolume]
      norm_num
  | @up sd v hr ih =>
    obtain ⟨ih0, ih1⟩ := ih
    rw [volumeUp]
    by_cases hb : maxVolume ≤ v
    · rw [if_pos hb]
      exact ⟨ih0, ih1⟩
    · rw [if_neg hb]
      show 0 ≤ (if maxVolume < fl32 (v + volumeStep) then maxVolume
          else fl32 (v + volumeStep)) ∧
        (if maxVolume < fl32 (v + volumeStep) then maxVolume
          else fl32 (v + volumeStep)) ≤ maxVolume
      have hsp : (0 : ℚ) < volumeStep := by
        rw [volumeStep_val]
        norm_num
      have h0 : 0 ≤ fl32 (v + volumeStep) := by
        rw [fl32]
        exact roundFP_nonneg 23 (by linarith)
      by_cases hcl : maxVolume < fl32 (v + volumeStep)
      · rw [if_pos hcl]
        rw [maxVolume]
        norm_num
      · rw [if_neg hcl]
        exact ⟨h0, le_of_not_lt hcl⟩
  | @down sd v hr ih =>
    obtain ⟨ih0, ih1⟩ := ih
    rw [volumeDown]
    by_cases hb : v ≤ minVolume
    · rw [if_pos hb]
      exact ⟨ih0, ih1⟩
    · rw [if_neg hb]
      push_neg at hb
      show 0 ≤ (if fl32 (v - volumeStep) < minVolume then minVolume
          else fl32 (v - volumeStep)) ∧
        (if fl32 (v - volumeStep) < minVolume then minVolume
          else fl32 (v - volumeStep)) ≤ maxVolume
      have hbm : minVolume = volumeStep := rfl
      have hvpos : (0 : ℚ) < v - volumeStep := by
        rw [hbm] at hb
        linarith
      have h0 : 0 ≤ fl32 (v - volumeStep) := by
        rw [fl32]
        exact roundFP_nonneg 23 (le_of_lt hvpos)
      have hup := roundFP_le 23 hvpos
      have hle1 : fl32 (v - volumeStep) ≤ maxVolume := by
        rw [fl32]
        rw [maxVolume] at ih1 ⊢
        rw [volumeStep_val] at hup ⊢
        linarith
      by_cases hcl : fl32 (v - volumeStep) < minVolume
      · rw [if_pos hcl]
        rw [minVolume_val, maxVolume]
        norm_num
      · rw [if_neg hcl]
        exact ⟨h0, hle1⟩

theorem c4_witness :
    0 ≤ (loadVolume 50).1 ∧ (loadVolume 50).1 ≤ maxVolume :=
  reachable_volume_bounds (loadVolume 50).1 (ReachableVol.load 50 (by norm_num))

/-! ### Claim C5 -/

/-- C5 (amended): the value persisted by `saveVolumeToEEPROM` is the
truncation toward zero of the single-precision product `v * 100`, which for
every in-range volume lies within one of `round(v*100)`: it equals
`round(v*100)` or `round(v*100) - 1`.  It genuinely takes the smaller value on
reachable states (see the counterexample), so "equals round(v*100)" is false
as stated. -/
theorem save_is_trunc_near_round (v : ℚ) (h0 : 0 < v) (h1 : v ≤ maxVolume) :
    (saveVolume v : ℤ) = round (v * 100) ∨
      (saveVolume v : ℤ) = round (v * 100) - 1 := by
  rw [maxVolume] at h1
  have hx : (0 : ℚ) < v * 100 := by linarith
  have hle := roundFP_le 23 hx
  have hge := le_roundFP 23 hx
  have hxle : v * 100 ≤ 100 := by linarith
  have hd : v * 100 / 2 ^ 23 ≤ 1 / 4 := by
    rw [div_le_iff₀ (by norm_num : (0 : ℚ) < 2 ^ 23)]
    linarith
  have hypos : (0 : ℚ) ≤ roundFP 23 (v * 100) := roundFP_nonneg 23 (le_of_lt hx)
  have hsv : (saveVolume v : ℤ) = ⌊roundFP 23 (v * 100)⌋ := by
    rw [saveVolume, fl32, cTrunc, if_pos hypos]
    have hfl0 : (0 : ℤ) ≤ ⌊roundFP 23 (v * 100)⌋ := Int.floor_nonneg.mpr hypos
    have hfl100 : ⌊roundFP 23 (v * 100)⌋ < 101 := by
      rw [Int.floor_lt]
      push_cast
      linarith
    omega
  rw [hsv, round_eq]
  have hub : ⌊roundFP 23 (v * 100)⌋ ≤ ⌊v * 100 + 1 / 2⌋ :=
    Int.floor_le_floor (by linarith)
  have hlb : ⌊v * 100 + 1 / 2⌋ - 1 ≤ ⌊roundFP 23 (v * 100)⌋ := by
    have he : ⌊v * 100 + 1 / 2 + (-1 : ℤ)⌋ = ⌊v * 100 + 1 / 2⌋ + (-1 : ℤ) :=
      Int.floor_add_int _ _
    have hmono : ⌊v * 100 + 1 / 2 + (-1 : ℤ)⌋ ≤ ⌊roundFP 23 (v * 100)⌋ := by
      apply Int.floor_le_floor
      push_cast
      linarith
    omega
  omega

theorem c5_witness :
    (saveVolume (1 / 2) : ℤ) = round ((1 : ℚ) / 2 * 100) ∨
      (saveVolume (1 / 2) : ℤ) = round ((1 : ℚ) / 2 * 100) - 1 :=
  save_is_trunc_near_round (1 / 2) (by norm_num) (by rw [maxVolume]; norm_num)

/-- C5 counterexample: loading stored byte 100 gives volume 1.0; one
`volumeDown` reaches v₁ = 15099494/2^24 (the binary32 value 0.89999998…), a
reachable state; the next `volumeDown` changes the volume to 13421772/2^24
(0.79999995…) but writes 79 to the EEPROM, while `round(v*100) = 80` for the
new volume v — the claim "the value written equals round(v*100)" fails. -/
theorem c5_counterexample :
    ReachableVol ((volumeDown sdNone (loadVolume 100).1).vol) ∧
    (volumeDown sdNone ((volumeDown sdNone (loadVolume 100).1).vol)).writes = [79] ∧
    round ((volumeDown sdNone ((volumeDown sdNone (loadVolume 100).1).vol)).vol * 100) = 80 := by
  have hv1 : (volumeDown sdNone (loadVolume 100).1).vol = 15099494 / 2 ^ 24 := by
    rw [loadVolume_100, volumeDown_one_vol]
  refine ⟨ReachableVol.down sdNone (ReachableVol.load 100 (by norm_num)), ?_, ?_⟩
  · rw [hv1, volumeDown_v1.2]
  · rw [hv1, volumeDown_v1.1, round_eq]
    exact Int.floor_eq_iff.mpr (by norm_num)

/-! ### Claim C7 -/

/-- C7: frame conditions of the volume operations, for any in-range state
`0 ≤ v ≤ maxVolume`: a call at the targeted bound leaves the volume unchanged
and performs zero EEPROM writes; any other call strictly moves the volume
toward the bound, stays within the bound, and performs exactly one write. -/
theorem volume_frame_effects (sd : List Nat → Bool) (v : ℚ)
    (h0 : 0 ≤ v) (h1 : v ≤ maxVolume) :
    (maxVolume ≤ v → (volumeUp sd v).vol = v ∧ (volumeUp sd v).writes = []) ∧
    (v < maxVolume → v < (volumeUp sd v).vol ∧ (volumeUp sd v).vol ≤ maxVolume ∧
      (volumeUp sd v).writes.length = 1) ∧
    (v ≤ minVolume → (volumeDown sd v).vol = v ∧ (volumeDown sd v).writes = []) ∧
    (minVolume < v → (volumeDown sd v).vol < v ∧ minVolume ≤ (volumeDown sd v).vol ∧
      (volumeDown sd v).writes.length = 1) := by
  refine ⟨?_, ?_, ?_, ?_⟩
  · intro hb
    rw [volumeUp, if_pos hb]
    exact ⟨rfl, rfl⟩
  · intro hb
    rw [volumeUp, if_neg (not_le.mpr hb)]
    have hsp : volumeStep = 13421773 / 2 ^ 27 := volumeStep_val
    have hxpos : (0 : ℚ) < v + volumeStep := by
      rw [hsp]
      linarith
    have hge := le_roundFP 23 hxpos
    have hstrict : v < fl32 (v + volumeStep) := by
      rw [fl32]
      rw [maxVolume] at h1
      rw [hsp] at hge hxpos ⊢
      linarith
    refine ⟨?_, ?_, rfl⟩
    · show v < (if maxVolume < fl32 (v + volumeStep) then maxVolume
        else fl32 (v + volumeStep))
      by_cases hcl : maxVolume < fl32 (v + volumeStep)
      · rw [if_pos hcl]
        exact hb
      · rw [if_neg hcl]
        exact hstrict
    · show (if maxVolume < fl32 (v + volumeStep) then maxVolume
        else fl32 (v + volumeStep)) ≤ maxVolume
      by_cases hcl : maxVolume < fl32 (v + volumeStep)
      · rw [if_pos hcl]
      · rw [if_neg hcl]
        exact le_of_not_lt hcl
  · intro hb
    rw [volumeDown, if_pos hb]
    exact ⟨rfl, rfl⟩
  · intro hb
    rw [volumeDown, if_neg (not_le.mpr hb)]
    have hsp : volumeStep = 13421773 / 2 ^ 27 := volumeStep_val
    have hmv : minVolume = volumeStep := rfl
    have hxpos : (0 : ℚ) < v - volumeStep := by
      rw [hmv] at hb
      linarith
    have hle := roundFP_le 23 hxpos
    have hstrict : fl32 (v - volumeStep) < v := by
      rw [fl32]
      rw [maxVolume] at h1
      rw [hsp] at hle hxpos ⊢
      linarith
    refine ⟨?_, ?_, rfl⟩
    · show (if fl32 (v - volumeStep) < minVolume then minVolume
        else fl32 (v - volumeStep)) < v
      by_cases hcl : fl32 (v - volumeStep) < minVolume
      · rw [if_pos hcl]
        exact hb
      · rw [if_neg hcl]
        exact hstrict
    · show minVolume ≤ (if fl32 (v - volumeStep) < minVolume then minVolume
        else fl32 (v - volumeStep))
      by_cases hcl : fl32 (v - volumeStep) < minVolume
      · rw [if_pos hcl]
      · rw [if_neg hcl]
        exact le_of_not_lt hcl

theorem c7_witness :
    (maxVolume ≤ (1 : ℚ) / 2 →
      (volumeUp sdNone ((1 : ℚ) / 2)).vol = 1 / 2 ∧ (volumeUp sdNone ((1 : ℚ) / 2)).writes = []) ∧
    ((1 : ℚ) / 2 < maxVolume →
      (1 : ℚ) / 2 < (volumeUp sdNone ((1 : ℚ) / 2)).vol ∧
      (volumeUp sdNone ((1 : ℚ) / 2)).vol ≤ maxVolume ∧
      (volumeUp sdNone ((1 : ℚ) / 2)).writes.length = 1) ∧
    ((1 : ℚ) / 2 ≤ minVolume →
      (volumeDown sdNone ((1 : ℚ) / 2)).vol = 1 / 2 ∧
      (volumeDown sdNone ((1 : ℚ) / 2)).writes = []) ∧
    (minVolume < (1 : ℚ) / 2 →
      (volumeDown sdNone ((1 : ℚ) / 2)).vol < 1 / 2 ∧
      minVolume ≤ (volumeDown sdNone ((1 : ℚ) / 2)).vol ∧
      (volumeDown sdNone ((1 : ℚ) / 2)).writes.length = 1) :=
  volume_frame_effects sdNone (1 / 2) (by norm_num) (by rw [maxVolume]; norm_num)

/-! ### Claim C8 -/

/-- C8 (amended): persistence self-heal.  For every stored byte greater than
100 the load sets the in-memory volume to the default 0.5 and immediately
writes 50 back.  For a stored byte at most 100 no write happens and the
in-memory volume is the binary32 approximation of `storedValue/100` — within
relative error `2^-22` of it, but (because `storedValue/100` is generally not
representable) not exactly equal to it; see the counterexample. -/
theorem load_selfheal (k : ℕ) :
    (100 < k → loadVolume k = (1 / 2, [50])) ∧
    (k ≤ 100 → (loadVolume k).2 = [] ∧
      |(loadVolume k).1 - (k : ℚ) / 100| ≤ (k : ℚ) / 100 / 2 ^ 22) := by
  constructor
  · intro hk
    rw [loadVolume, if_neg (by omega), saveVolume_half]
  · intro hk
    rw [loadVolume, if_pos hk]
    refine ⟨rfl, ?_⟩
    show |fl32 (fl64 ((k : ℚ) / 100)) - (k : ℚ) / 100| ≤ (k : ℚ) / 100 / 2 ^ 22
    rcases Nat.eq_zero_or_pos k with h0 | hpos
    · subst h0
      rw [show (((0 : ℕ) : ℚ) / 100) = 0 by norm_num, fl64, roundFP_zero, fl32, roundFP_zero]
      norm_num
    · have hx : (0 : ℚ) < (k : ℚ) / 100 := by positivity
      rw [fl32, fl64]
      have h1 := roundFP_le 52 hx
      have h2 := le_roundFP 52 hx
      have ha : 0 < roundFP 52 ((k : ℚ) / 100) := by linarith
      have h3 := roundFP_le 23 ha
      have h4 := le_roundFP 23 ha
      rw [abs_le]
      constructor
      · linarith
      · linarith

theorem c8_witness : loadVolume 150 = (1 / 2, [50]) :=
  (load_selfheal 150).1 (by norm_num)

/-- C8 counterexample: for stored byte 10 the code performs no write, but the
in-memory volume is the float value 13421773/2^27 = 0.10000000149…, not
`storedValue/100 = 1/10` — the "set to storedValue/100" part only holds up to
binary32 rounding. -/
theorem c8_counterexample :
    (loadVolume 10).2 = [] ∧ (loadVolume 10).1 ≠ (10 : ℚ) / 100 := by
  have h : (loadVolume 10).1 = 13421773 / 2 ^ 27 := by
    rw [loadVolume, if_pos (by norm_num)]
    show fl32 (fl64 (((10 : ℕ) : ℚ) / 100)) = 13421773 / 2 ^ 27
    rw [show (((10 : ℕ) : ℚ) / 100) = 1 / 10 by norm_num, fl64_tenth, fl32_of_fl64_tenth]
  refine ⟨rfl, ?_⟩
  rw [h]
  norm_num

/-! ### Claim C6 -/

theorem toupperByte_idem (c : Nat) : toupperByte (toupperByte c) = toupperByte c := by
  unfold toupperByte
  split_ifs <;> omega

/-- Any text the dispatch loop decodes is short: the parse buffer holds at
most 24 bytes (6 pages), `textStart >= 5`, and the bounds check caps the text
at `dataLength - 5 <= 19` bytes — in particular under the 27-byte filename
limit of `searchAndPlayWAV`. -/
theorem parse_text_length_le (data t : List Nat)
    (hL : data.length ≤ 24) (h : parseNDEFTextRecord data 128 = some t) :
    t.length ≤ 19 := by
  rw [parseNDEFTextRecord, parseNDEFRun, parseRunAux_fst, scanNDEF_some_iff] at h
  obtain ⟨k, hk, ⟨hsm, hok⟩, hfirst, ht⟩ := h
  obtain ⟨hpos, hlt, hbnd⟩ := hok
  rw [ht, extractText, List.length_take, List.length_drop]
  have h2 : textStartAt data (0 + k) = 0 + k + 5 + langLenAt data (0 + k) := rfl
  omega

/-- C6: on every decoded text — a NUL-free byte string of length at most 27 —
the dispatch classification of `loop` agrees exactly with the spec's
classifier: case-insensitive exact match of "VOLUMEUP", then "VOLUMEDN", and
otherwise `PlayAsset(uppercase(text) ++ ".WAV")`; in particular the empty
string yields `PlayAsset(".WAV")`. -/
theorem classify_agrees_with_spec (t : List Nat) (hnz : ∀ c, c ∈ t → c ≠ 0)
    (hlen : t.length ≤ 27) :
    classify t = some (classifySpec t) := by
  have hc : cstr t = t := by
    rw [cstr, List.takeWhile_eq_self_iff]
    intro x hx
    simpa using hnz x hx
  rw [classify, classifySpec, hc]
  by_cases h1 : t.map toupperByte = VOLUMEUPCMD
  · rw [if_pos h1, if_pos h1]
  · rw [if_neg h1, if_neg h1]
    by_cases h2 : t.map toupperByte = VOLUMEDNCMD
    · rw [if_pos h2, if_pos h2]
    · rw [if_neg h2, if_neg h2, mkFilename,
        if_pos (show (t.map toupperByte).length ≤ 27 by rw [List.length_map]; exact hlen)]
      have hid : (t.map toupperByte).map toupperByte = t.map toupperByte := by
        rw [List.map_map]
        exact List.map_congr_left fun a _ => toupperByte_idem a
      rw [hid]
      rfl

theorem c6_witness :
    classify [104, 101, 108, 108, 111] = some (classifySpec [104, 101, 108, 108, 111]) :=
  classify_agrees_with_spec [104, 101, 108, 108, 111] (by decide) (by decide)

/-! ### Claim C9 -/

theorem readPagesAux_none (pages : List (Option (List Nat))) :
    ∀ acc, none ∈ pages → (readPagesAux acc pages).1 = false := by
  induction pages with
  | nil =>
    intro acc h
    simp at h
  | cons o rest ih =>
    intro acc h
    cases o with
    | none => rfl
    | some pg =>
      have hr : none ∈ rest := by
        rcases List.mem_cons.mp h with h1 | h1
        · exact absurd h1 (by simp)
        · exact h1
      rw [readPagesAux]
      by_cases hc : acc.length + 4 ≤ 24
      · rw [if_pos hc]
        exact ih (acc ++ pg.take 4) hr
      · rw [if_neg hc]
        exact ih acc hr

/-- C9: in every poll cycle in which one of the six page reads fails, the
cycle is completely silent: the in-memory volume is unchanged, no EEPROM
write happens, and nothing is played — not even the no-match fallback. -/
theorem page_read_failure_silent (sd : List Nat → Bool) (v : ℚ) (uidLength : Nat)
    (pages : List (Option (List Nat))) (h : none ∈ pages) :
    loopCycle sd v uidLength pages = { vol := v, writes := [], plays := [] } := by
  rw [loopCycle]
  by_cases hu : uidLength = 7
  · rw [if_pos hu]
    have hf : (readPagesAux [] pages).1 = false := readPagesAux_none pages [] h
    rw [if_neg (by rw [hf]; simp)]
  · rw [if_neg hu]

theorem c9_witness :
    loopCycle sdNone (1 / 2) 7
        [some [3, 0, 0, 0], some [209, 1, 2, 84], some [0, 65, 0, 0], none,
          some [0, 0, 0, 0], some [0, 0, 0, 0]] =
      { vol := 1 / 2, writes := [], plays := [] } :=
  page_read_failure_silent sdNone (1 / 2) 7
    [some [3, 0, 0, 0], some [209, 1, 2, 84], some [0, 65, 0, 0], none,
      some [0, 0, 0, 0], some [0, 0, 0, 0]] (by decide)

end WAM
